import Mathlib

/-!
Verification development for the CNC archiver (src/archiverWIN7.py).

The Python source is shallowly embedded below:

* pure text helpers (extract_cnc_time, _parse_material, format_timedelta)
  become Lean functions over String;
* the regular expressions compiled in the source are embedded as values of
  a small regex AST together with a backtracking matcher reproducing the
  leftmost-match, greedy/lazy priority semantics of Python re.search;
* the polling engine (PollingEngine) becomes explicit state passing over
  an EngineState record; filesystem effects are modelled by an association
  list from path to file data, and the fallible OS / database calls of the
  archival transition are driven by an explicit fault-injection record;
* timestamps (datetime.now values, mtimes) are integer numbers of
  seconds; the dwell comparison elapsed < 420 and the duration formatting
  are unchanged by this (no claim depends on sub-second fractions).
-/

/-! ## Association lists (model of Python dicts and of the filesystem) -/

/-- Lookup in an association list; mirrors Python dict access and .get. -/
def alookup {α : Type} : List (String × α) → String → Option α
  | [], _ => none
  | (k', v) :: t, k => if k' = k then some v else alookup t k

/-- Assignment d[k] = v: replaces the first binding of k, else appends.
This is the insertion-order semantics of a Python dict assignment. -/
def aset {α : Type} : List (String × α) → String → α → List (String × α)
  | [], k, v => [(k, v)]
  | (k', v') :: t, k, v => if k' = k then (k, v) :: t else (k', v') :: aset t k v

/-- Deletion del d[k] / d.pop(k, None): removes every binding of k. -/
def aerase {α : Type} : List (String × α) → String → List (String × α)
  | [], _ => []
  | (k', v') :: t, k => if k' = k then aerase t k else (k', v') :: aerase t k

/-- The keys of an association list, in insertion order. -/
def akeys {α : Type} (l : List (String × α)) : List String :=
  l.map Prod.fst

theorem alookup_aset_self {α : Type} (l : List (String × α)) (k : String) (v : α) :
    alookup (aset l k v) k = some v := by
  induction l with
  | nil => simp [aset, alookup]
  | cons p t ih =>
    obtain ⟨k', v'⟩ := p
    by_cases h : k' = k <;> simp [aset, alookup, h, ih]

theorem alookup_aset_ne {α : Type} (l : List (String × α)) (k k' : String) (v : α)
    (h : k' ≠ k) : alookup (aset l k v) k' = alookup l k' := by
  induction l with
  | nil => simp [aset, alookup, Ne.symm h]
  | cons p t ih =>
    obtain ⟨k₀, v₀⟩ := p
    by_cases h0 : k₀ = k
    · subst h0
      simp [aset, alookup, Ne.symm h]
    · simp [aset, alookup, h0, ih]

theorem alookup_aerase_self {α : Type} (l : List (String × α)) (k : String) :
    alookup (aerase l k) k = none := by
  induction l with
  | nil => simp [aerase, alookup]
  | cons p t ih =>
    obtain ⟨k', v'⟩ := p
    by_cases h : k' = k <;> simp [aerase, alookup, h, ih]

theorem alookup_aerase_ne {α : Type} (l : List (String × α)) (k k' : String)
    (h : k' ≠ k) : alookup (aerase l k) k' = alookup l k' := by
  induction l with
  | nil => simp [aerase, alookup]
  | cons p t ih =>
    obtain ⟨k₀, v₀⟩ := p
    by_cases h0 : k₀ = k
    · subst h0
      simp [aerase, alookup, Ne.symm h, ih]
    · simp [aerase, alookup, h0, ih]

theorem alookup_isSome_of_mem_akeys {α : Type} (l : List (String × α)) (k : String)
    (h : k ∈ akeys l) : (alookup l k).isSome := by
  induction l with
  | nil => simp [akeys] at h
  | cons p t ih =>
    obtain ⟨k₀, v₀⟩ := p
    by_cases h0 : k₀ = k
    · simp [alookup, h0]
    · simp only [akeys, List.map_cons, List.mem_cons] at h
      rcases h with h | h
      · exact absurd h.symm h0
      · simpa [alookup, h0] using ih h

/-! ## Regex engine

The source compiles a handful of regular expressions with re.IGNORECASE
(and re.MULTILINE for extract_cnc_time) and uses re.search.  We embed them
in a small AST whose backtracking matcher reproduces the Python semantics
needed here: leftmost match, greedy / lazy repetition priority,
alternation preferring the left branch. All repetition operators in the
source's patterns range over single-character classes, which keeps the
matcher structurally recursive. -/

/-- Regex AST. Repetitions range over character classes only. -/
inductive RE where
  /-- empty pattern -/
  | eps : RE
  /-- single character from a class -/
  | one : (Char → Bool) → RE
  /-- concatenation -/
  | seq : RE → RE → RE
  /-- alternation, left branch preferred (Python | and greedy option) -/
  | alt : RE → RE → RE
  /-- greedy Kleene star over a character class -/
  | starG : (Char → Bool) → RE
  /-- lazy Kleene star over a character class -/
  | starL : (Char → Bool) → RE
  /-- dollar anchor under re.MULTILINE: end of text or before a newline -/
  | eolM : RE
  /-- dollar anchor without re.MULTILINE: end of text or before a final newline -/
  | eosD : RE

/-- Greedy star: consume as many class characters as possible, then give
back one at a time while the continuation fails. -/
def starGrun (p : Char → Bool) : List Char → (List Char → Option (List Char)) →
    Option (List Char)
  | [], k => k []
  | c :: rest, k =>
      if p c then
        match starGrun p rest k with
        | some r => some r
        | none => k (c :: rest)
      else k (c :: rest)

/-- Lazy star: try the continuation first, consume a class character only
on failure. -/
def starLrun (p : Char → Bool) : List Char → (List Char → Option (List Char)) →
    Option (List Char)
  | l, k =>
      match k l with
      | some r => some r
      | none =>
          match l with
          | [] => none
          | c :: rest => if p c then starLrun p rest k else none

/-- Backtracking matcher in continuation style. The continuation receives
the unconsumed suffix; the first success in priority order wins, exactly
as in Python's re backtracking. -/
def runRE : RE → List Char → (List Char → Option (List Char)) → Option (List Char)
  | RE.eps, l, k => k l
  | RE.one p, l, k =>
      match l with
      | [] => none
      | c :: rest => if p c then k rest else none
  | RE.seq a b, l, k => runRE a l (fun l2 => runRE b l2 k)
  | RE.alt a b, l, k =>
      match runRE a l k with
      | some r => some r
      | none => runRE b l k
  | RE.starG p, l, k => starGrun p l k
  | RE.starL p, l, k => starLrun p l k
  | RE.eolM, l, k =>
      match l with
      | [] => k []
      | c :: rest => if c = '\n' then k (c :: rest) else none
  | RE.eosD, l, k =>
      match l with
      | [] => k []
      | ['\n'] => k ['\n']
      | _ => none

/-- A pattern with exactly one capture group: pre (group) post. -/
structure Pat where
  pre : RE
  grp : RE
  post : RE

/-- Try to match a pattern at the head of l, returning the characters
captured by the group. -/
def patMatchAt (p : Pat) (l : List Char) : Option (List Char) :=
  runRE p.pre l (fun l1 =>
    runRE p.grp l1 (fun l2 =>
      runRE p.post l2 (fun _ =>
        some (l1.take (l1.length - l2.length)))))

/-- re.search: try the pattern at every start position from the left. -/
def patSearch (p : Pat) : List Char → Option (List Char)
  | [] => patMatchAt p []
  | c :: t =>
      match patMatchAt p (c :: t) with
      | some g => some g
      | none => patSearch p t

/-! ### Character classes and pattern combinators -/

/-- Python \d (ASCII digits suffice for the inputs at hand). -/
def reDigit : Char → Bool := fun c => c.isDigit

/-- Python \s (ASCII whitespace). -/
def reSpace : Char → Bool := fun c =>
  c == ' ' || c == '\t' || c == '\n' || c == '\r' || c == '\x0b' || c == '\x0c'

/-- A literal character, compared case-insensitively (re.IGNORECASE). -/
def ciChar (c : Char) : RE := RE.one (fun x => x.toLower == c.toLower)

/-- A literal string, compared case-insensitively. -/
def strCI (s : String) : RE :=
  s.data.foldr (fun c r => RE.seq (ciChar c) r) RE.eps

/-- Greedy optional (?:r)? -/
def reOpt (r : RE) : RE := RE.alt r RE.eps

/-- Greedy plus over a character class. -/
def rePlus (p : Char → Bool) : RE := RE.seq (RE.one p) (RE.starG p)

/-- Lazy plus over a character class (Python +?). -/
def rePlusLazy (p : Char → Bool) : RE := RE.seq (RE.one p) (RE.starL p)

/-- One character from an explicit set (for classes like [:=]). -/
def choice (cs : List Char) : RE := RE.one (fun x => cs.contains x)

/-- Exactly two digits. -/
def twoDigits : RE := RE.seq (RE.one reDigit) (RE.one reDigit)

/-- One or two digits, greedy (\d{1,2}: two digits preferred). -/
def oneOrTwoDigits : RE := RE.alt twoDigits (RE.one reDigit)

/-- Optional fractional part (?:[.,]\d+)? -/
def fracOpt : RE := reOpt (RE.seq (choice ['.', ',']) (rePlus reDigit))

/-- HH:MM:SS group body: hours of one or two digits if h12, an optional
fraction if frac. -/
def hmsGroup (h12 : Bool) (frac : Bool) : RE :=
  RE.seq (if h12 then oneOrTwoDigits else twoDigits)
    (RE.seq (ciChar ':')
      (RE.seq twoDigits
        (RE.seq (ciChar ':')
          (RE.seq twoDigits (if frac then fracOpt else RE.eps)))))

/-! ### The patterns of extract_cnc_time (source lines 130-141) -/

/-- Fanuc: (?:Cycle\s+)?Time\s*[:=]\s*(\d{1,2}:\d{2}:\d{2}(?:[.,]\d+)?) -/
def cncPat1 : Pat :=
  { pre := RE.seq (reOpt (RE.seq (strCI "Cycle") (rePlus reSpace)))
      (RE.seq (strCI "Time")
        (RE.seq (RE.starG reSpace)
          (RE.seq (choice [':', '=']) (RE.starG reSpace))))
    grp := hmsGroup true true
    post := RE.eps }

/-- Siemens: [;#]TIME[=:]\s*(\d{2}:\d{2}:\d{2}(?:[.,]\d+)?) -/
def cncPat2 : Pat :=
  { pre := RE.seq (choice [';', '#'])
      (RE.seq (strCI "TIME")
        (RE.seq (choice ['=', ':']) (RE.starG reSpace)))
    grp := hmsGroup false true
    post := RE.eps }

/-- Mazak: (?:CUT\s+TIME|RUN\s+TIME)\s+(\d{1,2}:\d{2}:\d{2}) -/
def cncPat3 : Pat :=
  { pre := RE.seq
      (RE.alt (RE.seq (strCI "CUT") (RE.seq (rePlus reSpace) (strCI "TIME")))
        (RE.seq (strCI "RUN") (RE.seq (rePlus reSpace) (strCI "TIME"))))
      (rePlus reSpace)
    grp := hmsGroup true false
    post := RE.eps }

/-- Parenthesised: \((\d{2}:\d{2}:\d{2}(?:[.,]\d+)?)\) -/
def cncPat4 : Pat :=
  { pre := ciChar '('
    grp := hmsGroup false true
    post := ciChar ')' }

/-- Trailing time: (\d{2}:\d{2}:\d{2}(?:[.,]\d+)?)\s*$  (with re.MULTILINE) -/
def cncPat5 : Pat :=
  { pre := RE.eps
    grp := hmsGroup false true
    post := RE.seq (RE.starG reSpace) RE.eolM }

/-- The ordered rule list of extract_cnc_time. -/
def cncPatterns : List Pat := [cncPat1, cncPat2, cncPat3, cncPat4, cncPat5]

/-! ### Python string primitives on character lists

The Python str operations the source uses (strip, splitlines, split with
one hyphen, replace of a single character, startswith, slicing) are given
structurally recursive models over List Char. -/

/-- str.strip() with no argument: drop whitespace from both ends. -/
def pyStrip (l : List Char) : List Char :=
  ((l.dropWhile reSpace).reverse.dropWhile reSpace).reverse

/-- Split at every newline; segments may be empty (blank segments are
filtered away by the caller, so the trailing-segment difference with
str.splitlines is immaterial). -/
def splitOnNL : List Char → List (List Char)
  | [] => [[]]
  | c :: t =>
      let r := splitOnNL t
      if c = '\n' then [] :: r
      else
        match r with
        | [] => [[c]]
        | h :: t' => (c :: h) :: t'

/-- str.split(sep, 1): the part before the first separator, and the part
after it when the separator occurs. -/
def splitFirst (sep : Char) : List Char → List Char × Option (List Char)
  | [] => ([], none)
  | c :: t =>
      if c = sep then ([], some t)
      else
        let r := splitFirst sep t
        (c :: r.1, r.2)

/-- str.startswith with a one-character argument. -/
def startsWithChar (l : List Char) (ch : Char) : Bool :=
  match l with
  | [] => false
  | c :: _ => c == ch

/-- First pattern in the list that matches, returning its capture group. -/
def firstPatMatch : List Pat → List Char → Option (List Char)
  | [], _ => none
  | p :: ps, text =>
      match patSearch p text with
      | some g => some g
      | none => firstPatMatch ps text

/-- extract_cnc_time (source lines 125-148): tries the ordered patterns with
re.search under MULTILINE | IGNORECASE; on a match returns
group(1).replace(",", ".").strip(); otherwise the sentinel "Brak". -/
def extract_cnc_time (text : String) : String :=
  match firstPatMatch cncPatterns text.data with
  | some g =>
      String.mk (pyStrip (g.map (fun c => if c == ',' then '.' else c)))
  | none => "Brak"

/-! ### The report file-name patterns of PollingEngine (lines 446-448) -/

/-- ISO_PATTERN = \.iso$ with re.IGNORECASE. -/
def isoPat : Pat :=
  { pre := RE.eps
    grp := RE.seq (ciChar '.') (strCI "iso")
    post := RE.eosD }

/-- TXT_PATTERN = \.txt$ with re.IGNORECASE. -/
def txtPat : Pat :=
  { pre := RE.eps
    grp := RE.seq (ciChar '.') (strCI "txt")
    post := RE.eosD }

/-- ISO_EXTRACT_PATTERN = #(.+?)\.iso\.txt$ with re.IGNORECASE;
the dot excludes newlines, the plus is lazy. -/
def isoExtractPat : Pat :=
  { pre := ciChar '#'
    grp := rePlusLazy (fun c => !(c == '\n'))
    post := RE.seq (strCI ".iso.txt") RE.eosD }

/-- ISO_PATTERN.search(filename) used as a Boolean. -/
def matchesISO (name : String) : Bool :=
  (patSearch isoPat name.data).isSome

/-- TXT_PATTERN.search(filename) used as a Boolean. -/
def matchesTXT (name : String) : Bool :=
  (patSearch txtPat name.data).isSome

/-- ISO_EXTRACT_PATTERN.search(filename), returning group(1). -/
def isoExtract (name : String) : Option String :=
  (patSearch isoExtractPat name.data).map String.mk

/-! ## parse_material (source lines 692-720, method _parse_material) -/

/-- The for ... else scan over lines[1:3]: first line containing a hyphen
and not starting with a parenthesis. -/
def pickHyphenLine : List (List Char) → Option (List Char)
  | [] => none
  | l :: t =>
      if l.contains '-' && !(startsWithChar l '(') then some l
      else pickHyphenLine t

/-- parse_material: operates on stripped non-blank lines; skips a leading
comment line, splits the chosen line on the first hyphen; the two parts
are trimmed and truncated to 50 and 20 characters. -/
def parse_material (text : String) : String × String :=
  let lines := ((splitOnNL text.data).map pyStrip).filter (fun l => !(l.isEmpty))
  match lines with
  | [] => ("Brak", "Brak")
  | first :: rest =>
    let cand :=
      if startsWithChar first '(' || startsWithChar first ';' then
        pickHyphenLine (rest.take 2)
      else some first
    match cand with
    | none => ("Brak", "Brak")
    | some line =>
      if !(line.contains '-') then (String.mk (line.take 50), "Brak")
      else
        match (splitFirst '-' line).2 with
        | none => (String.mk ((pyStrip (splitFirst '-' line).1).take 50), "Brak")
        | some right =>
          (String.mk ((pyStrip (splitFirst '-' line).1).take 50),
           String.mk ((pyStrip right).take 20))

/-! ## format_timedelta (source lines 150-156) -/

/-- Zero-padded two-digit decimal rendering of a natural number,
mirroring Python's format spec 02d for the nonnegative values used here. -/
def pad2 (n : Nat) : String :=
  if n < 10 then "0" ++ toString n else toString n

/-- format_timedelta: HH:MM:SS from a duration in seconds; the durations
formatted by the engine are whole nonnegative seconds, for which
int(td.total_seconds()) is the integer itself. -/
def format_timedelta (td : ℤ) : String :=
  let total : ℕ := td.toNat
  let hours := total / 3600
  let minutes := (total % 3600) / 60
  let seconds := total % 60
  pad2 hours ++ ":" ++ pad2 minutes ++ ":" ++ pad2 seconds

/-! ## Engine data model

EngineState embeds the mutable state of PollingEngine (source lines
450-465) plus the persisted table (class Database) as a list of rows.
Timestamps are rational numbers of seconds. -/

/-- A file on disk: size in bytes plus an abstract content identifier
(shutil.copy2 copies content; os.path.getsize reads the size). -/
structure FileData where
  size : ℕ
  content : ℕ
  deriving DecidableEq, Repr

/-- The filesystem: full path to file data. -/
abbrev FS : Type := List (String × FileData)

/-- One row of the pliki table (dataclass FileRecord, source lines 80-94). -/
structure FileRecord where
  nazwa : String
  sciezka_a : String
  sciezka_b : String
  sciezka_c : String
  czas_wrzucenia : ℤ
  czas_pobrania : Option ℤ
  czas_archiwizacji : Option ℤ
  czas_cyklu_ab : Option String
  material : String := "Brak"
  grubosc : String := "Brak"
  czas_realny_cnc : String := "Brak"
  deriving DecidableEq, Repr

/-- The in-memory engine state (PollingEngine.__init__, lines 450-465)
together with the persisted store. -/
structure EngineState where
  waiting : List (String × (String × ℤ))
  seen_in_b : List (String × ℤ)
  last_b_time : Option ℤ
  d_cache : List (String × ℤ)
  processed : ℕ
  errors : ℕ
  db : List FileRecord
  deriving DecidableEq, Repr

/-- The engine state at construction: empty maps, counters at zero. -/
def initState : EngineState :=
  { waiting := [], seen_in_b := [], last_b_time := none, d_cache := [],
    processed := 0, errors := 0, db := [] }

/-- The four configured directories (folder_a .. folder_d). -/
structure Cfg where
  folder_a : String
  folder_b : String
  folder_c : String
  folder_d : String
  deriving DecidableEq, Repr

/-- os.path.join, posix-style. -/
def pjoin (dir file : String) : String := dir ++ "/" ++ file

/-- Observable events of the archival transition and of the stage-B scan,
in the order the corresponding source lines execute. -/
inductive Ev where
  | sighting : String → Ev
  | archiveInvoked : String → Ev
  | copied : Ev
  | verifiedTempExists : Ev
  | verifiedTempSize : Ev
  | renamed : Ev
  | verifiedFinal : Ev
  | removedSource : Ev
  | inserted : Ev
  deriving DecidableEq, Repr

/-- Outcome of shutil.copy2 under fault injection: it may return normally
having written data, return normally with the target absent at the later
verification, or raise, possibly leaving a partial temp file. -/
inductive CopyOutcome where
  | ok : FileData → CopyOutcome
  | okVanished : CopyOutcome
  | err : Option FileData → CopyOutcome
  deriving DecidableEq, Repr

/-- Fault injection for one _archive_file attempt: which fallible calls
succeed. A false flag means the call raises. finalVanishes models the
archive copy disappearing between the rename and its verification. -/
structure ArchFaults where
  copyOutcome : CopyOutcome
  renameOk : Bool
  finalVanishes : Bool
  removeOk : Bool
  insertOk : Bool
  cleanupRemoveOk : Bool
  deriving DecidableEq, Repr

/-- Fault assignment under which every call succeeds and the copy writes d. -/
def honestFaults (d : FileData) : ArchFaults :=
  { copyOutcome := CopyOutcome.ok d, renameOk := true, finalVanishes := false,
    removeOk := true, insertOk := true, cleanupRemoveOk := true }

/-- Result of the file-operation phase of _archive_file (steps 1-5,
source lines 569-588): on failure the filesystem as left behind and the
events so far; on success additionally the data now at the archive path. -/
inductive AttemptRes where
  | fail : FS → List Ev → AttemptRes
  | ok : FS → List Ev → AttemptRes
  deriving DecidableEq, Repr

/-- Steps 2-5 of _archive_file after copy2 returned: existence check of
the temp file, size comparison, os.replace, final existence check,
os.remove of the source. -/
def archiveAttemptGo (fl : ArchFaults) (fs1 : FS) (path_a temp path_c : String) :
    AttemptRes :=
  match alookup fs1 temp with
  | none => AttemptRes.fail fs1 [Ev.copied]
  | some tdata =>
    match alookup fs1 path_a with
    | none => AttemptRes.fail fs1 [Ev.copied, Ev.verifiedTempExists]
    | some adata =>
      if tdata.size ≠ adata.size then
        AttemptRes.fail fs1 [Ev.copied, Ev.verifiedTempExists]
      else if fl.renameOk = false then
        AttemptRes.fail fs1 [Ev.copied, Ev.verifiedTempExists, Ev.verifiedTempSize]
      else
        let fs2 := aset (aerase fs1 temp) path_c tdata
        let fs3 := if fl.finalVanishes then aerase fs2 path_c else fs2
        match alookup fs3 path_c with
        | none =>
            AttemptRes.fail fs3
              [Ev.copied, Ev.verifiedTempExists, Ev.verifiedTempSize, Ev.renamed]
        | some _ =>
          if fl.removeOk = false then
            AttemptRes.fail fs3
              [Ev.copied, Ev.verifiedTempExists, Ev.verifiedTempSize,
               Ev.renamed, Ev.verifiedFinal]
          else
            AttemptRes.ok (aerase fs3 path_a)
              [Ev.copied, Ev.verifiedTempExists, Ev.verifiedTempSize,
               Ev.renamed, Ev.verifiedFinal, Ev.removedSource]

/-- Steps 1-5 of _archive_file: copy to the temp path, then verify,
rename, verify, delete source. -/
def archiveAttempt (fl : ArchFaults) (fs : FS) (path_a temp path_c : String) :
    AttemptRes :=
  match fl.copyOutcome with
  | CopyOutcome.err leftover =>
      AttemptRes.fail
        (match leftover with
         | none => fs
         | some d => aset fs temp d) []
  | CopyOutcome.okVanished => archiveAttemptGo fl (aerase fs temp) path_a temp path_c
  | CopyOutcome.ok written =>
      archiveAttemptGo fl (aset fs temp written) path_a temp path_c

/-- Result of one _archive_file call. -/
structure ArchOut where
  st : EngineState
  fs : FS
  trace : List Ev
  ok : Bool
  deriving DecidableEq, Repr

/-- The except-branch of _archive_file (source lines 623-632): increment
the error counter, remove the temp file if present, swallowing a failure
of that removal. -/
def archFail (fl : ArchFaults) (s : EngineState) (fs : FS) (temp : String)
    (tr : List Ev) : ArchOut :=
  let fs' :=
    match alookup fs temp with
    | some _ => if fl.cleanupRemoveOk then aerase fs temp else fs
    | none => fs
  { st := { s with errors := s.errors + 1 }, fs := fs', trace := tr, ok := false }

/-- _archive_file (source lines 561-632). After the file-operation phase,
the cycle time is computed and last_b_time set (lines 590-595), the
record is built reading seen_in_b[filename] (a KeyError there is caught
by the same except), Database.insert runs, and only then the waiting and
seen_in_b entries are removed and the processed counter incremented. -/
def archiveFile (cfg : Cfg) (fl : ArchFaults) (s : EngineState) (fs : FS)
    (filename : String) (now : ℤ) : ArchOut :=
  match alookup s.waiting filename with
  | none => { st := s, fs := fs, trace := [], ok := false }
  | some (path_a, time_added) =>
    let path_c := pjoin cfg.folder_c filename
    let path_b := pjoin cfg.folder_b filename
    let temp := path_c ++ ".tmp"
    match archiveAttempt fl fs path_a temp path_c with
    | AttemptRes.fail fs' tr => archFail fl s fs' temp tr
    | AttemptRes.ok fs' tr =>
      let cycle := s.last_b_time.map (fun t => format_timedelta (now - t))
      let s1 := { s with last_b_time := some now }
      match alookup s.seen_in_b filename with
      | none => archFail fl s1 fs' temp tr
      | some tb =>
        let record : FileRecord :=
          { nazwa := filename, sciezka_a := path_a, sciezka_b := path_b,
            sciezka_c := path_c, czas_wrzucenia := time_added,
            czas_pobrania := some tb, czas_archiwizacji := some now,
            czas_cyklu_ab := cycle }
        if fl.insertOk then
          let s2 : EngineState :=
            { s1 with
              db := s1.db ++ [record]
              waiting := aerase s1.waiting filename
              seen_in_b := aerase s1.seen_in_b filename
              processed := s1.processed + 1 }
          { st := s2, fs := fs', trace := tr ++ [Ev.inserted], ok := true }
        else archFail fl s1 fs' temp tr

/-! ## Stage-B scan (_process_folder_b, source lines 537-559) -/

/-- Accumulated output of a folder-B scan. -/
structure BOut where
  st : EngineState
  fs : FS
  trace : List Ev
  deriving DecidableEq, Repr

/-- The loop body of _process_folder_b for one tracked file name:
skip if absent from folder B; record the first sighting and stop for
this tick; otherwise archive once the dwell elapsed reaches
ARCHIVE_DELAY = 420 seconds. flf assigns the fault injection of the
archive attempt per file name; fsB tells which full paths exist in
folder B. -/
def stepB (cfg : Cfg) (flf : String → ArchFaults) (fsB : String → Bool)
    (now : ℤ) (acc : BOut) (filename : String) : BOut :=
  if fsB (pjoin cfg.folder_b filename) = false then acc
  else
    match alookup acc.st.seen_in_b filename with
    | none =>
        { acc with
          st := { acc.st with seen_in_b := aset acc.st.seen_in_b filename now },
          trace := acc.trace ++ [Ev.sighting filename] }
    | some t =>
        if now - t < 420 then acc
        else
          let out := archiveFile cfg (flf filename) acc.st acc.fs filename now
          { st := out.st, fs := out.fs,
            trace := acc.trace ++ [Ev.archiveInvoked filename] ++ out.trace }

/-- _process_folder_b: iterate the loop body over a snapshot of the
waiting keys (list(self.waiting.keys())). -/
def processFolderB (cfg : Cfg) (flf : String → ArchFaults) (fsB : String → Bool)
    (now : ℤ) (s : EngineState) (fs : FS) : BOut :=
  (akeys s.waiting).foldl (stepB cfg flf fsB now) { st := s, fs := fs, trace := [] }

/-! ## Intake scan (_process_folder_a, source lines 508-535) -/

/-- The loop body of _process_folder_a for one directory entry: skip
non-ISO names, names already tracked, non-regular files; probe the size
twice (stab gives the two sizes, none when getsize raises); if stable,
enqueue into waiting with timestamp now. -/
def stepA (cfg : Cfg) (isfile : String → Bool) (stab : String → Option (ℕ × ℕ))
    (now : ℤ) (s : EngineState) (filename : String) : EngineState :=
  if matchesISO filename = false then s
  else if (alookup s.waiting filename).isSome then s
  else
    let full_path := pjoin cfg.folder_a filename
    if isfile full_path = false then s
    else
      match stab full_path with
      | none => s
      | some (sz1, sz2) =>
          if sz1 ≠ sz2 then s
          else { s with waiting := aset s.waiting filename (full_path, now) }

/-- _process_folder_a over a directory listing. -/
def processFolderA (cfg : Cfg) (isfile : String → Bool)
    (stab : String → Option (ℕ × ℕ)) (now : ℤ) (listing : List String)
    (s : EngineState) : EngineState :=
  listing.foldl (stepA cfg isfile stab now) s

/-! ## Report scan (_process_folder_d, source lines 634-690) -/

/-- One file of folder D as seen by the scan: its name, the result of
os.path.getmtime (none when it raises), and the decoded content (none
when opening or reading raises). -/
structure DFile where
  name : String
  mtime : Option ℤ
  content : Option String
  deriving DecidableEq, Repr

/-- A pending metadata update (material, grubosc, czas, iso_name),
in the tuple order of the source (line 637). -/
abbrev CncUpdate : Type := String × String × String × String

/-- The scan accumulator: the d_cache and the batched updates. -/
abbrev DAcc : Type := List (String × ℤ) × List CncUpdate

/-- The loop body of _process_folder_d for one directory entry: skip
non-txt names and unreadable mtimes; skip when the cached mtime equals
the current one; otherwise cache the new mtime first, then check the
naming convention, then read the content, then parse. -/
def stepD (acc : DAcc) (f : DFile) : DAcc :=
  if matchesTXT f.name = false then acc
  else
    match f.mtime with
    | none => acc
    | some m =>
      if alookup acc.1 f.name = some m then acc
      else
        let cache1 := aset acc.1 f.name m
        match isoExtract f.name with
        | none => (cache1, acc.2)
        | some token =>
          let iso_name := token ++ ".iso"
          match f.content with
          | none => (cache1, acc.2)
          | some content =>
            let mg := parse_material content
            let cnc := extract_cnc_time content
            (cache1, acc.2 ++ [(mg.1, mg.2, cnc, iso_name)])

/-- Database.update_cnc_data (source lines 282-291): update material,
grubosc and czas_realny_cnc on every row whose nazwa equals iso_name. -/
def applyUpdate (db : List FileRecord) (u : CncUpdate) : List FileRecord :=
  db.map (fun r =>
    if r.nazwa = u.2.2.2 then
      { r with material := u.1, grubosc := u.2.1, czas_realny_cnc := u.2.2.1 }
    else r)

/-- _process_folder_d: scan the listing, then apply the batched updates. -/
def processFolderD (files : List DFile) (s : EngineState) : EngineState :=
  let res := files.foldl stepD (s.d_cache, [])
  { s with d_cache := res.1, db := res.2.foldl applyUpdate s.db }

/-! ## Tick loop (_run, source lines 479-498)

The three scans execute inside a single try block; the except branch
increments the error counter. The step functions are abstracted here as
state transformers paired with a flag telling whether the call returned
normally (true) or raised (false), which captures exactly the control
flow of the loop body. -/

/-- Which steps of a tick ran. -/
inductive StepTag where
  | A : StepTag
  | B : StepTag
  | D : StepTag
  deriving DecidableEq, Repr

/-- One iteration of the polling loop body: _process_folder_a,
_process_folder_b, _process_folder_d in order inside one try; on the
first step that raises, the remaining steps are skipped and
stats["errors"] is incremented. Returns the new state and the list of
steps that ran. -/
def pollTick (fa fb fd : EngineState → EngineState × Bool) (s : EngineState) :
    EngineState × List StepTag :=
  let ra := fa s
  if ra.2 = false then
    ({ ra.1 with errors := ra.1.errors + 1 }, [StepTag.A])
  else
    let rb := fb ra.1
    if rb.2 = false then
      ({ rb.1 with errors := rb.1.errors + 1 }, [StepTag.A, StepTag.B])
    else
      let rd := fd rb.1
      if rd.2 = false then
        ({ rd.1 with errors := rd.1.errors + 1 }, [StepTag.A, StepTag.B, StepTag.D])
      else (rd.1, [StepTag.A, StepTag.B, StepTag.D])

/-- n iterations of the polling loop, with per-tick step behaviours;
collects each tick's executed-step list (most recent tick last). -/
def pollLoop (fa fb fd : ℕ → EngineState → EngineState × Bool) :
    ℕ → EngineState → EngineState × List (List StepTag)
  | 0, s => (s, [])
  | Nat.succ n, s =>
      let r1 := pollTick (fa n) (fb n) (fd n) s
      let r2 := pollLoop fa fb fd n r1.1
      (r2.1, r1.2 :: r2.2)

/-! ## Facts about the archival transition -/

theorem tmp_ne_self (s : String) : s ++ ".tmp" ≠ s := by
  intro h
  have hl := congrArg String.length h
  rw [String.length_append] at hl
  have h4 : (".tmp").length = 4 := rfl
  omega

/-- A failing file-operation phase never deleted the source: the
removedSource event is absent from its trace. -/
theorem attempt_fail_noRemove (fl : ArchFaults) (fs : FS) (pa temp pc : String)
    (fs' : FS) (tr : List Ev)
    (h : archiveAttempt fl fs pa temp pc = AttemptRes.fail fs' tr) :
    Ev.removedSource ∉ tr := by
  unfold archiveAttempt archiveAttemptGo at h
  simp only at h
  repeat' split at h
  all_goals first
    | (injection h with h1 h2; subst h2; decide)
    | (exact absurd h (by simp))

/-- A failing file-operation phase emits no named event. -/
theorem attempt_fail_unnamed (fl : ArchFaults) (fs : FS) (pa temp pc : String)
    (fs' : FS) (tr : List Ev) (z : String)
    (h : archiveAttempt fl fs pa temp pc = AttemptRes.fail fs' tr) :
    Ev.archiveInvoked z ∉ tr ∧ Ev.sighting z ∉ tr := by
  unfold archiveAttempt archiveAttemptGo at h
  simp only at h
  repeat' split at h
  all_goals first
    | (injection h with h1 h2; subst h2; constructor <;> simp)
    | (exact absurd h (by simp))

/-- A successful file-operation phase performs exactly the documented
sequence: copy, the two temp verifications, rename, final verification,
source deletion. -/
theorem attempt_ok_trace (fl : ArchFaults) (fs : FS) (pa temp pc : String)
    (fs' : FS) (tr : List Ev)
    (h : archiveAttempt fl fs pa temp pc = AttemptRes.ok fs' tr) :
    tr = [Ev.copied, Ev.verifiedTempExists, Ev.verifiedTempSize,
          Ev.renamed, Ev.verifiedFinal, Ev.removedSource] := by
  unfold archiveAttempt archiveAttemptGo at h
  simp only at h
  repeat' split at h
  all_goals first
    | (injection h with h1 h2; subst h2; rfl)
    | (exact absurd h (by simp))

/-- A failing file-operation phase leaves the source path untouched. -/
theorem attempt_fail_fs (fl : ArchFaults) (fs : FS) (pa temp pc : String)
    (fs' : FS) (tr : List Ev) (hpa1 : pa ≠ temp) (hpa2 : pa ≠ pc)
    (h : archiveAttempt fl fs pa temp pc = AttemptRes.fail fs' tr) :
    alookup fs' pa = alookup fs pa := by
  unfold archiveAttempt archiveAttemptGo at h
  simp only at h
  repeat' split at h
  all_goals first
    | (injection h with h1 h2; subst h1;
       simp [alookup_aset_ne, alookup_aerase_ne, hpa1, hpa2])
    | (exact absurd h (by simp))

/-- A successful file-operation phase removed the source path. -/
theorem attempt_ok_fs_pa (fl : ArchFaults) (fs : FS) (pa temp pc : String)
    (fs' : FS) (tr : List Ev)
    (h : archiveAttempt fl fs pa temp pc = AttemptRes.ok fs' tr) :
    alookup fs' pa = none := by
  unfold archiveAttempt archiveAttemptGo at h
  simp only at h
  repeat' split at h
  all_goals first
    | (injection h with h1 h2; subst h1; simp [alookup_aerase_self])
    | (exact absurd h (by simp))

/-- The except-branch only increments the error counter on the state. -/
theorem archFail_st (fl : ArchFaults) (s : EngineState) (fs : FS) (temp : String)
    (tr : List Ev) :
    (archFail fl s fs temp tr).st = { s with errors := s.errors + 1 } := rfl

/-- When the cleanup removal succeeds, the temp path is absent afterwards. -/
theorem archFail_fs_temp (fl : ArchFaults) (s : EngineState) (fs : FS)
    (temp : String) (tr : List Ev) (hc : fl.cleanupRemoveOk = true) :
    alookup (archFail fl s fs temp tr).fs temp = none := by
  unfold archFail
  rcases h : alookup fs temp with _ | d
  · simpa using h
  · simp [hc, alookup_aerase_self]

/-- The except-branch touches no path other than the temp path. -/
theorem archFail_fs_other (fl : ArchFaults) (s : EngineState) (fs : FS)
    (temp pa : String) (tr : List Ev) (hpa : pa ≠ temp) :
    alookup (archFail fl s fs temp tr).fs pa = alookup fs pa := by
  unfold archFail
  rcases h : alookup fs temp with _ | d
  · simp
  · by_cases hc : fl.cleanupRemoveOk <;> simp [hc, alookup_aerase_ne _ _ _ hpa]

/-- Case split of one _archive_file call: either it failed and the two
tracking maps are untouched, or it succeeded and the waiting entry and
the sighting entry were removed together. -/
theorem archive_cases (cfg : Cfg) (fl : ArchFaults) (s : EngineState) (fs : FS)
    (filename : String) (now : ℤ) :
    ((archiveFile cfg fl s fs filename now).ok = false ∧
      (archiveFile cfg fl s fs filename now).st.waiting = s.waiting ∧
      (archiveFile cfg fl s fs filename now).st.seen_in_b = s.seen_in_b) ∨
    ((archiveFile cfg fl s fs filename now).ok = true ∧
      (archiveFile cfg fl s fs filename now).st.waiting = aerase s.waiting filename ∧
      (archiveFile cfg fl s fs filename now).st.seen_in_b = aerase s.seen_in_b filename) := by
  unfold archiveFile
  rcases hw : alookup s.waiting filename with _ | ⟨pa, ta⟩
  · simp
  · simp only
    rcases hA : archiveAttempt fl fs pa
        (pjoin cfg.folder_c filename ++ ".tmp") (pjoin cfg.folder_c filename)
      with ⟨fs1, tr1⟩ | ⟨fs1, tr1⟩
    · simp [archFail]
    · rcases hs : alookup s.seen_in_b filename with _ | tb
      · simp [archFail]
      · by_cases hi : fl.insertOk = true <;> simp [hi, archFail]

/-- An _archive_file call emits no stage-B scan events of its own. -/
theorem archive_trace_unnamed (cfg : Cfg) (fl : ArchFaults) (s : EngineState)
    (fs : FS) (filename z : String) (now : ℤ) :
    Ev.archiveInvoked z ∉ (archiveFile cfg fl s fs filename now).trace ∧
    Ev.sighting z ∉ (archiveFile cfg fl s fs filename now).trace := by
  unfold archiveFile
  rcases hw : alookup s.waiting filename with _ | ⟨pa, ta⟩
  · simp
  · simp only
    rcases hA : archiveAttempt fl fs pa
        (pjoin cfg.folder_c filename ++ ".tmp") (pjoin cfg.folder_c filename)
      with ⟨fs1, tr1⟩ | ⟨fs1, tr1⟩
    · have h := attempt_fail_unnamed fl fs pa
        (pjoin cfg.folder_c filename ++ ".tmp") (pjoin cfg.folder_c filename)
        fs1 tr1 z hA
      simpa [archFail] using h
    · have h := attempt_ok_trace fl fs pa
        (pjoin cfg.folder_c filename ++ ".tmp") (pjoin cfg.folder_c filename)
        fs1 tr1 hA
      subst h
      rcases hs : alookup s.seen_in_b filename with _ | tb
      · simp [archFail]
      · by_cases hi : fl.insertOk = true <;> simp [hi, archFail]

/-- On any failure of _archive_file for a tracked file, the error counter
is incremented and the tracking maps, processed counter and table rows
are all unchanged. -/
theorem archive_fail_state (cfg : Cfg) (fl : ArchFaults) (s : EngineState)
    (fs : FS) (filename : String) (now : ℤ) (pa : String) (ta : ℤ)
    (hw : alookup s.waiting filename = some (pa, ta))
    (hok : (archiveFile cfg fl s fs filename now).ok = false) :
    (archiveFile cfg fl s fs filename now).st.errors = s.errors + 1 ∧
    (archiveFile cfg fl s fs filename now).st.waiting = s.waiting ∧
    (archiveFile cfg fl s fs filename now).st.seen_in_b = s.seen_in_b ∧
    (archiveFile cfg fl s fs filename now).st.processed = s.processed ∧
    (archiveFile cfg fl s fs filename now).st.db = s.db := by
  unfold archiveFile at hok ⊢
  simp only [hw] at hok ⊢
  rcases hA : archiveAttempt fl fs pa
      (pjoin cfg.folder_c filename ++ ".tmp") (pjoin cfg.folder_c filename)
    with ⟨fs1, tr1⟩ | ⟨fs1, tr1⟩
  · simp [hA, archFail]
  · simp only [hA] at hok ⊢
    rcases hs : alookup s.seen_in_b filename with _ | tb
    · simp [hs, archFail]
    · simp only [hs] at hok ⊢
      by_cases hi : fl.insertOk = true
      · simp [hi] at hok
      · simp [hi, archFail]

/-- On any failure of _archive_file for a tracked file, if the cleanup
removal call succeeds the temp file is absent afterwards. -/
theorem archive_fail_fs_temp (cfg : Cfg) (fl : ArchFaults) (s : EngineState)
    (fs : FS) (filename : String) (now : ℤ) (pa : String) (ta : ℤ)
    (hw : alookup s.waiting filename = some (pa, ta))
    (hc : fl.cleanupRemoveOk = true)
    (hok : (archiveFile cfg fl s fs filename now).ok = false) :
    alookup (archiveFile cfg fl s fs filename now).fs
      (pjoin cfg.folder_c filename ++ ".tmp") = none := by
  unfold archiveFile at hok ⊢
  simp only [hw] at hok ⊢
  rcases hA : archiveAttempt fl fs pa
      (pjoin cfg.folder_c filename ++ ".tmp") (pjoin cfg.folder_c filename)
    with ⟨fs1, tr1⟩ | ⟨fs1, tr1⟩
  · simp [hA, archFail_fs_temp _ _ _ _ _ hc]
  · simp only [hA] at hok ⊢
    rcases hs : alookup s.seen_in_b filename with _ | tb
    · simp [hs, archFail_fs_temp _ _ _ _ _ hc]
    · simp only [hs] at hok ⊢
      by_cases hi : fl.insertOk = true
      · simp [hi] at hok
      · simp [hi, archFail_fs_temp _ _ _ _ _ hc]

/-- On a failure of _archive_file in which the source was never removed
(no removedSource event), the source path is untouched on disk. -/
theorem archive_fail_fs_pa (cfg : Cfg) (fl : ArchFaults) (s : EngineState)
    (fs : FS) (filename : String) (now : ℤ) (pa : String) (ta : ℤ)
    (hw : alookup s.waiting filename = some (pa, ta))
    (hpa1 : pa ≠ pjoin cfg.folder_c filename ++ ".tmp")
    (hpa2 : pa ≠ pjoin cfg.folder_c filename)
    (hnr : Ev.removedSource ∉ (archiveFile cfg fl s fs filename now).trace) :
    alookup (archiveFile cfg fl s fs filename now).fs pa = alookup fs pa := by
  unfold archiveFile at hnr ⊢
  simp only [hw] at hnr ⊢
  rcases hA : archiveAttempt fl fs pa
      (pjoin cfg.folder_c filename ++ ".tmp") (pjoin cfg.folder_c filename)
    with ⟨fs1, tr1⟩ | ⟨fs1, tr1⟩
  · have h1 := attempt_fail_fs fl fs pa
      (pjoin cfg.folder_c filename ++ ".tmp") (pjoin cfg.folder_c filename)
      fs1 tr1 hpa1 hpa2 hA
    simp [hA, archFail_fs_other _ _ _ _ _ _ hpa1, h1]
  · have h1 := attempt_ok_trace fl fs pa
      (pjoin cfg.folder_c filename ++ ".tmp") (pjoin cfg.folder_c filename)
      fs1 tr1 hA
    subst h1
    simp only [hA] at hnr ⊢
    rcases hs : alookup s.seen_in_b filename with _ | tb
    · simp [hs, archFail] at hnr
    · simp only [hs] at hnr ⊢
      by_cases hi : fl.insertOk = true
      · simp [hi] at hnr
      · simp [hi, archFail] at hnr

/-- A successful _archive_file call appends exactly one row, stamped with
the archival time and with the cycle string computed from last_b_time. -/
theorem archive_ok_db (cfg : Cfg) (fl : ArchFaults) (s : EngineState)
    (fs : FS) (filename : String) (now : ℤ)
    (hok : (archiveFile cfg fl s fs filename now).ok = true) :
    ∃ r : FileRecord,
      (archiveFile cfg fl s fs filename now).st.db = s.db ++ [r] ∧
      r.nazwa = filename ∧
      r.czas_archiwizacji = some now ∧
      r.czas_cyklu_ab =
        Option.map (fun t => format_timedelta (now - t)) s.last_b_time := by
  unfold archiveFile at hok ⊢
  rcases hw : alookup s.waiting filename with _ | ⟨pa, ta⟩
  · simp [hw] at hok
  · simp only [hw] at hok ⊢
    rcases hA : archiveAttempt fl fs pa
        (pjoin cfg.folder_c filename ++ ".tmp") (pjoin cfg.folder_c filename)
      with ⟨fs1, tr1⟩ | ⟨fs1, tr1⟩
    · simp [hA, archFail] at hok
    · simp only [hA] at hok ⊢
      rcases hs : alookup s.seen_in_b filename with _ | tb
      · simp [hs, archFail] at hok
      · simp only [hs] at hok ⊢
        by_cases hi : fl.insertOk = true
        · exact ⟨{ nazwa := filename, sciezka_a := pa,
                   sciezka_b := pjoin cfg.folder_b filename,
                   sciezka_c := pjoin cfg.folder_c filename,
                   czas_wrzucenia := ta, czas_pobrania := some tb,
                   czas_archiwizacji := some now,
                   czas_cyklu_ab :=
                     Option.map (fun t => format_timedelta (now - t)) s.last_b_time },
                 by simp [hi], rfl, rfl, rfl⟩
        · simp [hi, archFail] at hok

/-- Under fault-free calls, _archive_file for a tracked, sighted file with
an existing source succeeds, performs exactly the documented sequence of
steps, and leaves the archive copy in place of the source with no temp
file behind. -/
theorem archive_honest_success (cfg : Cfg) (s : EngineState) (fs : FS)
    (filename : String) (now : ℤ) (pa : String) (ta tb : ℤ) (d : FileData)
    (hw : alookup s.waiting filename = some (pa, ta))
    (hs : alookup s.seen_in_b filename = some tb)
    (hfs : alookup fs pa = some d)
    (hpa1 : pa ≠ pjoin cfg.folder_c filename ++ ".tmp")
    (hpa2 : pa ≠ pjoin cfg.folder_c filename) :
    (archiveFile cfg (honestFaults d) s fs filename now).ok = true ∧
    (archiveFile cfg (honestFaults d) s fs filename now).trace =
      [Ev.copied, Ev.verifiedTempExists, Ev.verifiedTempSize, Ev.renamed,
       Ev.verifiedFinal, Ev.removedSource, Ev.inserted] ∧
    alookup (archiveFile cfg (honestFaults d) s fs filename now).fs
      (pjoin cfg.folder_c filename) = some d ∧
    alookup (archiveFile cfg (honestFaults d) s fs filename now).fs pa = none ∧
    alookup (archiveFile cfg (honestFaults d) s fs filename now).fs
      (pjoin cfg.folder_c filename ++ ".tmp") = none := by
  unfold archiveFile archiveAttempt archiveAttemptGo honestFaults
  simp only [hw, hs]
  simp [alookup_aset_self, alookup_aset_ne _ _ _ _ hpa1,
    alookup_aerase_ne _ _ _ hpa1, hpa1, hpa2, Ne.symm hpa1, Ne.symm hpa2,
    tmp_ne_self, alookup_aerase_self, alookup_aerase_ne, alookup_aset_ne,
    hfs]

/-! ## Concrete fixtures used by counterexamples and witnesses -/

/-- A concrete configuration. -/
def cfgW : Cfg := { folder_a := "A", folder_b := "B", folder_c := "C", folder_d := "D" }

/-- A concrete source file. -/
def fdW : FileData := { size := 5, content := 7 }

/-- A concrete engine state: j.iso tracked since time 10, sighted at the
machine stage at time 100, previous archival at time 50. -/
def stW : EngineState :=
  { waiting := [("j.iso", ("A/j.iso", 10))], seen_in_b := [("j.iso", 100)],
    last_b_time := some 50, d_cache := [], processed := 0, errors := 0, db := [] }

/-- A concrete filesystem holding only the intake copy of j.iso. -/
def fsW : FS := [("A/j.iso", fdW)]

/-- Faults where only the database insert raises. -/
def insertFailFaults : ArchFaults := { honestFaults fdW with insertOk := false }

/-- Faults where only the atomic rename raises. -/
def renameFailFaults : ArchFaults := { honestFaults fdW with renameOk := false }

/-! ## Claim C1 -/

/-- Claim C1, counterexample: when the database insert is the failing
step, the archival transition fails (ok = false, error counted) yet the
intake original A/j.iso, present before, has already been deleted - the
claim that a failure at any step leaves the intake original untouched is
false at this input. -/
theorem C1_counterexample :
    (archiveFile cfgW insertFailFaults stW fsW "j.iso" 600).ok = false ∧
    alookup fsW "A/j.iso" = some fdW ∧
    alookup (archiveFile cfgW insertFailFaults stW fsW "j.iso" 600).fs
      "A/j.iso" = none := by
  refine ⟨rfl, rfl, rfl⟩

/-- Claim C1 (amended): if the archival transition for a tracked file
fails, the error counter is incremented and the waiting and stage-B
sighting maps are unchanged (so the file is re-attempted from the dwell
check next tick); the temp file is absent whenever the cleanup removal
call succeeds; and the intake original is untouched provided the failure
happened before the source-deletion step - a failure at the database
insert happens after the source was already deleted. -/
theorem C1_archive_failure_cleanup (cfg : Cfg) (fl : ArchFaults)
    (s : EngineState) (fs : FS) (filename : String) (now : ℤ) (pa : String)
    (ta : ℤ) (hw : alookup s.waiting filename = some (pa, ta))
    (hok : (archiveFile cfg fl s fs filename now).ok = false) :
    (archiveFile cfg fl s fs filename now).st.errors = s.errors + 1 ∧
    (archiveFile cfg fl s fs filename now).st.waiting = s.waiting ∧
    (archiveFile cfg fl s fs filename now).st.seen_in_b = s.seen_in_b ∧
    (fl.cleanupRemoveOk = true →
      alookup (archiveFile cfg fl s fs filename now).fs
        (pjoin cfg.folder_c filename ++ ".tmp") = none) ∧
    (Ev.removedSource ∉ (archiveFile cfg fl s fs filename now).trace →
      pa ≠ pjoin cfg.folder_c filename ++ ".tmp" →
      pa ≠ pjoin cfg.folder_c filename →
      alookup (archiveFile cfg fl s fs filename now).fs pa = alookup fs pa) := by
  obtain ⟨h1, h2, h3, _, _⟩ :=
    archive_fail_state cfg fl s fs filename now pa ta hw hok
  refine ⟨h1, h2, h3, ?_, ?_⟩
  · intro hc
    exact archive_fail_fs_temp cfg fl s fs filename now pa ta hw hc hok
  · intro hnr hpa1 hpa2
    exact archive_fail_fs_pa cfg fl s fs filename now pa ta hw hpa1 hpa2 hnr

/-- Claim C1, witness: the amended failure property evaluated on a
concrete rename failure. -/
theorem C1_witness :
    (archiveFile cfgW renameFailFaults stW fsW "j.iso" 600).st.errors =
      stW.errors + 1 ∧
    (archiveFile cfgW renameFailFaults stW fsW "j.iso" 600).st.waiting =
      stW.waiting ∧
    (archiveFile cfgW renameFailFaults stW fsW "j.iso" 600).st.seen_in_b =
      stW.seen_in_b ∧
    (renameFailFaults.cleanupRemoveOk = true →
      alookup (archiveFile cfgW renameFailFaults stW fsW "j.iso" 600).fs
        (pjoin cfgW.folder_c "j.iso" ++ ".tmp") = none) ∧
    (Ev.removedSource ∉
        (archiveFile cfgW renameFailFaults stW fsW "j.iso" 600).trace →
      "A/j.iso" ≠ pjoin cfgW.folder_c "j.iso" ++ ".tmp" →
      "A/j.iso" ≠ pjoin cfgW.folder_c "j.iso" →
      alookup (archiveFile cfgW renameFailFaults stW fsW "j.iso" 600).fs
        "A/j.iso" = alookup fsW "A/j.iso") :=
  C1_archive_failure_cleanup cfgW renameFailFaults stW fsW "j.iso" 600
    "A/j.iso" 10 rfl rfl

/-! ## Claim C2 -/

/-- Claim C2, counterexample: a successful archival at time 600 of a file
sighted at the machine stage at time 100, with the previous archival at
time 50, persists the cycle string 00:09:10 = format(600 - 50), computed
from this file's archival time - not 00:00:50 = format(100 - 50), the
delta from this file's machine-stage sighting time that the claim
prescribes. -/
theorem C2_counterexample :
    (archiveFile cfgW (honestFaults fdW) stW fsW "j.iso" 600).ok = true ∧
    alookup stW.seen_in_b "j.iso" = some 100 ∧
    stW.last_b_time = some 50 ∧
    ((archiveFile cfgW (honestFaults fdW) stW fsW "j.iso" 600).st.db.map
      (fun r => r.czas_cyklu_ab)) = [some "00:09:10"] ∧
    format_timedelta ((100 : ℤ) - 50) = "00:00:50" ∧
    ¬((some "00:09:10" : Option String) = some "00:00:50") := by
  refine ⟨rfl, rfl, rfl, rfl, rfl, by decide⟩

/-- Claim C2 (amended): for every successful archival, the persisted
cycle-duration string is the delta between this file's archival time and
the engine's last_b_time (the time recorded by the previous attempt that
completed the file operations, normally the previous successful
archival), and it is null when last_b_time is unset, in particular for
the very first file archived in the process lifetime. -/
theorem C2_cycle_time (cfg : Cfg) (fl : ArchFaults) (s : EngineState)
    (fs : FS) (filename : String) (now : ℤ)
    (hok : (archiveFile cfg fl s fs filename now).ok = true) :
    ∃ r : FileRecord,
      (archiveFile cfg fl s fs filename now).st.db = s.db ++ [r] ∧
      r.czas_archiwizacji = some now ∧
      r.czas_cyklu_ab =
        Option.map (fun t => format_timedelta (now - t)) s.last_b_time ∧
      (s.last_b_time = none → r.czas_cyklu_ab = none) := by
  obtain ⟨r, h1, _, h3, h4⟩ := archive_ok_db cfg fl s fs filename now hok
  refine ⟨r, h1, h3, h4, ?_⟩
  intro hnone
  rw [h4, hnone]
  rfl

/-- Claim C2, witness: the amended cycle-time property evaluated on a
concrete successful archival. -/
theorem C2_witness :
    ∃ r : FileRecord,
      (archiveFile cfgW (honestFaults fdW) stW fsW "j.iso" 600).st.db =
        stW.db ++ [r] ∧
      r.czas_archiwizacji = some 600 ∧
      r.czas_cyklu_ab =
        Option.map (fun t => format_timedelta (600 - t)) stW.last_b_time ∧
      (stW.last_b_time = none → r.czas_cyklu_ab = none) :=
  C2_cycle_time cfgW (honestFaults fdW) stW fsW "j.iso" 600 rfl

/-! ## Claim C6 -/

/-- Helper for claim C6: whenever the source deletion happened, it was
preceded by exactly the copy, both temp verifications, the rename and the
final verification, in that order. -/
theorem archive_remove_prefix (cfg : Cfg) (fl : ArchFaults) (s : EngineState)
    (fs : FS) (filename : String) (now : ℤ)
    (hm : Ev.removedSource ∈ (archiveFile cfg fl s fs filename now).trace) :
    ((archiveFile cfg fl s fs filename now).trace).take 6 =
      [Ev.copied, Ev.verifiedTempExists, Ev.verifiedTempSize, Ev.renamed,
       Ev.verifiedFinal, Ev.removedSource] := by
  unfold archiveFile at hm ⊢
  rcases hw : alookup s.waiting filename with _ | ⟨pa, ta⟩
  · simp [hw] at hm
  · simp only [hw] at hm ⊢
    rcases hA : archiveAttempt fl fs pa
        (pjoin cfg.folder_c filename ++ ".tmp") (pjoin cfg.folder_c filename)
      with ⟨fs1, tr1⟩ | ⟨fs1, tr1⟩
    · have h := attempt_fail_noRemove fl fs pa
        (pjoin cfg.folder_c filename ++ ".tmp") (pjoin cfg.folder_c filename)
        fs1 tr1 hA
      simp only [hA] at hm
      simp [archFail] at hm
      exact absurd hm h
    · have h := attempt_ok_trace fl fs pa
        (pjoin cfg.folder_c filename ++ ".tmp") (pjoin cfg.folder_c filename)
        fs1 tr1 hA
      subst h
      simp only [hA] at hm ⊢
      rcases hs : alookup s.seen_in_b filename with _ | tb
      · simp [archFail]
      · by_cases hi : fl.insertOk = true <;> simp [hi, archFail]

/-- Claim C6: a successful archival performs exactly copy, temp existence
and size verification, atomic rename, final-path verification, and only
then source deletion (then the insert); and in every run, fault-injected
or not, the source deletion only ever happens after exactly those
verified steps. -/
theorem C6_step_sequence :
    (∀ cfg fl s fs filename now,
      Ev.removedSource ∈ (archiveFile cfg fl s fs filename now).trace →
      ((archiveFile cfg fl s fs filename now).trace).take 6 =
        [Ev.copied, Ev.verifiedTempExists, Ev.verifiedTempSize, Ev.renamed,
         Ev.verifiedFinal, Ev.removedSource]) ∧
    (∀ cfg s fs filename now pa ta tb d,
      alookup s.waiting filename = some (pa, ta) →
      alookup s.seen_in_b filename = some tb →
      alookup fs pa = some d →
      pa ≠ pjoin cfg.folder_c filename ++ ".tmp" →
      pa ≠ pjoin cfg.folder_c filename →
      (archiveFile cfg (honestFaults d) s fs filename now).ok = true ∧
      (archiveFile cfg (honestFaults d) s fs filename now).trace =
        [Ev.copied, Ev.verifiedTempExists, Ev.verifiedTempSize, Ev.renamed,
         Ev.verifiedFinal, Ev.removedSource, Ev.inserted] ∧
      alookup (archiveFile cfg (honestFaults d) s fs filename now).fs
        (pjoin cfg.folder_c filename) = some d ∧
      alookup (archiveFile cfg (honestFaults d) s fs filename now).fs pa = none ∧
      alookup (archiveFile cfg (honestFaults d) s fs filename now).fs
        (pjoin cfg.folder_c filename ++ ".tmp") = none) :=
  ⟨fun cfg fl s fs filename now hm =>
      archive_remove_prefix cfg fl s fs filename now hm,
   fun cfg s fs filename now pa ta tb d hw hs hfs hpa1 hpa2 =>
      archive_honest_success cfg s fs filename now pa ta tb d hw hs hfs hpa1 hpa2⟩

/-- Claim C6, witness: both parts evaluated on the concrete fixture. -/
theorem C6_witness :
    ((archiveFile cfgW (honestFaults fdW) stW fsW "j.iso" 600).trace).take 6 =
      [Ev.copied, Ev.verifiedTempExists, Ev.verifiedTempSize, Ev.renamed,
       Ev.verifiedFinal, Ev.removedSource] ∧
    (archiveFile cfgW (honestFaults fdW) stW fsW "j.iso" 600).ok = true ∧
    alookup (archiveFile cfgW (honestFaults fdW) stW fsW "j.iso" 600).fs
      (pjoin cfgW.folder_c "j.iso") = some fdW ∧
    alookup (archiveFile cfgW (honestFaults fdW) stW fsW "j.iso" 600).fs
      "A/j.iso" = none :=
  ⟨C6_step_sequence.1 cfgW (honestFaults fdW) stW fsW "j.iso" 600 (by decide),
   (C6_step_sequence.2 cfgW stW fsW "j.iso" 600 "A/j.iso" 10 100 fdW rfl rfl rfl
      (by decide) (by decide)).1,
   (C6_step_sequence.2 cfgW stW fsW "j.iso" 600 "A/j.iso" 10 100 fdW rfl rfl rfl
      (by decide) (by decide)).2.2.1,
   (C6_step_sequence.2 cfgW stW fsW "j.iso" 600 "A/j.iso" 10 100 fdW rfl rfl rfl
      (by decide) (by decide)).2.2.2.1⟩

/-! ## Claim C3 -/

/-- Claim C3, counterexample: a tick in which step 1 (the intake scan)
raises runs neither step 2 nor step 4 - the single try block of _run
aborts the remainder of the tick, contrary to the claim that the
remaining steps of the same tick still run. -/
theorem C3_counterexample :
    (pollTick (fun s => (s, false)) (fun s => (s, true)) (fun s => (s, true))
        initState).2 = [StepTag.A] ∧
    StepTag.B ∉ (pollTick (fun s => (s, false)) (fun s => (s, true))
        (fun s => (s, true)) initState).2 ∧
    StepTag.D ∉ (pollTick (fun s => (s, false)) (fun s => (s, true))
        (fun s => (s, true)) initState).2 := by
  refine ⟨rfl, by decide, by decide⟩

/-- Claim C3 (amended): within a tick, an exception in the intake scan
skips the machine-stage and report scans of that same tick, and an
exception in the machine-stage scan skips the report scan; each such
exception increments the error counter once; but no exception in any
step ever prevents subsequent ticks from running - the loop performs
every tick regardless of step failures, and only then are a tick's steps
conditioned on the earlier steps of that same tick. -/
theorem C3_tick_fault_isolation :
    (∀ fa fb fd : EngineState → EngineState × Bool, ∀ s : EngineState,
      (fa s).2 = false →
      (pollTick fa fb fd s).2 = [StepTag.A] ∧
      (pollTick fa fb fd s).1 = { (fa s).1 with errors := (fa s).1.errors + 1 }) ∧
    (∀ fa fb fd : EngineState → EngineState × Bool, ∀ s : EngineState,
      (fa s).2 = true → (fb (fa s).1).2 = false →
      (pollTick fa fb fd s).2 = [StepTag.A, StepTag.B] ∧
      (pollTick fa fb fd s).1 =
        { (fb (fa s).1).1 with errors := (fb (fa s).1).1.errors + 1 }) ∧
    (∀ fa fb fd : EngineState → EngineState × Bool, ∀ s : EngineState,
      (fa s).2 = true → (fb (fa s).1).2 = true →
      (pollTick fa fb fd s).2 = [StepTag.A, StepTag.B, StepTag.D]) ∧
    (∀ fa fb fd : ℕ → EngineState → EngineState × Bool, ∀ n : ℕ,
      ∀ s : EngineState, (pollLoop fa fb fd n s).2.length = n) := by
  refine ⟨?_, ?_, ?_, ?_⟩
  · intro fa fb fd s ha
    simp [pollTick, ha]
  · intro fa fb fd s ha hb
    simp [pollTick, ha, hb]
  · intro fa fb fd s ha hb
    by_cases hd : (fd (fb (fa s).1).1).2 = false <;> simp [pollTick, ha, hb, hd]
  · intro fa fb fd n
    induction n with
    | zero => intro s; rfl
    | succ m ih =>
      intro s
      simp [pollLoop, ih]

/-- Claim C3, witness: the amended tick behaviour evaluated concretely -
a failing step 2 runs steps 1 and 2 only, and a three-tick loop whose
every tick fails still runs all three ticks. -/
theorem C3_witness :
    (pollTick (fun s => (s, true)) (fun s => (s, false)) (fun s => (s, true))
        initState).2 = [StepTag.A, StepTag.B] ∧
    (pollLoop (fun _ s => (s, false)) (fun _ s => (s, true))
        (fun _ s => (s, true)) 3 initState).2.length = 3 :=
  ⟨(C3_tick_fault_isolation.2.1 (fun s => (s, true)) (fun s => (s, false))
      (fun s => (s, true)) initState rfl rfl).1,
   C3_tick_fault_isolation.2.2.2 (fun _ s => (s, false)) (fun _ s => (s, true))
      (fun _ s => (s, true)) 3 initState⟩

/-! ## Claim C4 -/

/-- Claim C4: extract_cycle_time (source name extract_cnc_time) applies
its ordered pattern rules case-insensitively and multiline over the whole
text and returns the first capture group of the first matching rule, with
comma decimal separators normalized to periods, and a sentinel - the
value the spec calls "unknown", spelled "Brak" in the source - when no
rule matches; the spec's three examples hold, a labelled time beats a
generic trailing time appearing earlier in the text, and the comma
normalization is exercised. -/
theorem C4_extract_cycle_time :
    extract_cnc_time "Cycle Time: 01:23:45" = "01:23:45" ∧
    extract_cnc_time ";TIME=00:05:00" = "00:05:00" ∧
    extract_cnc_time "no time here" = "Brak" ∧
    extract_cnc_time "Time: 01:02:03,5" = "01:02:03.5" ∧
    extract_cnc_time "Total 01:02:03\nTime: 04:05:06" = "04:05:06" ∧
    (∀ text : String, firstPatMatch cncPatterns text.data = none →
      extract_cnc_time text = "Brak") ∧
    (∀ (text : String) (g : List Char),
      firstPatMatch cncPatterns text.data = some g →
      extract_cnc_time text =
        String.mk (pyStrip (g.map (fun c => if c == ',' then '.' else c)))) := by
  refine ⟨rfl, rfl, rfl, rfl, rfl, ?_, ?_⟩
  · intro text h
    unfold extract_cnc_time
    rw [h]
  · intro text g h
    unfold extract_cnc_time
    rw [h]

/-- Claim C4, witness: the two quantified parts evaluated at concrete
inputs. -/
theorem C4_witness :
    extract_cnc_time "zz" = "Brak" ∧
    extract_cnc_time "(07:08:09)" =
      String.mk (pyStrip (("07:08:09".data).map
        (fun c => if c == ',' then '.' else c))) :=
  ⟨C4_extract_cycle_time.2.2.2.2.2.1 "zz" rfl,
   C4_extract_cycle_time.2.2.2.2.2.2 "(07:08:09)" "07:08:09".data rfl⟩

/-! ## Claim C5 -/

/-- Claim C5, counterexample: on a line whose part after the first hyphen
is empty, parse_material returns the empty string as thickness, not the
sentinel value the claim prescribes for an empty right part. -/
theorem C5_counterexample :
    parse_material "STEEL-" = ("STEEL", "") ∧
    ¬(parse_material "STEEL-" = ("STEEL", "Brak")) := by
  refine ⟨rfl, by decide⟩

/-- Claim C5 (amended), stated as a reference function following the
claim's wording: work on the non-blank trimmed lines; none gives the
sentinel pair; a first line starting with a parenthesis or semicolon is
replaced by the first of the next two lines containing a hyphen and not
starting with a parenthesis, else the sentinel pair; a chosen line with
no hyphen gives the line truncated to 50 characters and an unknown
thickness; otherwise split at the first hyphen, material is the left
part trimmed and truncated to 50 characters and thickness the right part
trimmed and truncated to 20 characters, possibly the empty string
(amendment: the source never substitutes the sentinel for an empty right
part). -/
def claimC5_parse (text : String) : String × String :=
  let nonBlank := ((splitOnNL text.data).map pyStrip).filter (fun l => !(l.isEmpty))
  match nonBlank with
  | [] => ("Brak", "Brak")
  | first :: rest =>
    let cand :=
      if startsWithChar first '(' || startsWithChar first ';' then
        (rest.take 2).find? (fun l => l.contains '-' && !(startsWithChar l '('))
      else some first
    match cand with
    | none => ("Brak", "Brak")
    | some line =>
      if line.contains '-' then
        match (splitFirst '-' line).2 with
        | none => (String.mk ((pyStrip (splitFirst '-' line).1).take 50), "Brak")
        | some right =>
          (String.mk ((pyStrip (splitFirst '-' line).1).take 50),
           String.mk ((pyStrip right).take 20))
      else (String.mk (line.take 50), "Brak")

/-- The source's comment-skipping scan coincides with the claim's
first-matching-line description. -/
theorem pickHyphenLine_eq_find (l : List (List Char)) :
    pickHyphenLine l =
      l.find? (fun x => x.contains '-' && !(startsWithChar x '(')) := by
  induction l with
  | nil => rfl
  | cons x t ih =>
    cases h : (x.contains '-' && !(startsWithChar x '(')) with
    | true => simp only [pickHyphenLine, List.find?, h, if_true]
    | false => simp only [pickHyphenLine, List.find?, h, if_false, ih, Bool.false_eq_true]

/-- Claim C5 (amended): parse_material behaves exactly as the claim
describes except that an empty right part yields the empty string, and
the spec's examples evaluate as stated (with the sentinel spelled
"Brak"). -/
theorem C5_parse_material :
    parse_material "STEEL-3MM" = ("STEEL", "3MM") ∧
    parse_material "(comment)\nALU - 5MM\n" = ("ALU", "5MM") ∧
    parse_material "" = ("Brak", "Brak") ∧
    parse_material "(c)\n\n  \n" = ("Brak", "Brak") ∧
    (∀ text, parse_material text = claimC5_parse text) := by
  refine ⟨rfl, rfl, rfl, rfl, ?_⟩
  intro text
  unfold parse_material claimC5_parse
  simp only [pickHyphenLine_eq_find]
  split
  · rfl
  · split
    · rfl
    · rename_i x1 lineVal hC
      cases hc : lineVal.contains '-' <;> simp [hc]

/-- Claim C5, witness: the quantified refinement evaluated at a concrete
input with a comment first line and an empty right part. -/
theorem C5_witness :
    parse_material ";c\nAL - \n" = claimC5_parse ";c\nAL - \n" :=
  C5_parse_material.2.2.2.2 ";c\nAL - \n"

/-! ## Report-scan facts (claims C8 and C9) -/

/-- The de-duplication cache is up to date for a report file: if the file
is a txt report and its mtime is readable, the cache holds exactly that
mtime. -/
def dCovers (cache : List (String × ℤ)) (f : DFile) : Prop :=
  matchesTXT f.name = true → ∀ m : ℤ, f.mtime = some m →
    alookup cache f.name = some m

/-- A report whose cached mtime is current is skipped without any cache
or update change. -/
theorem stepD_skip (cache : List (String × ℤ)) (ups : List CncUpdate)
    (f : DFile) (h : dCovers cache f) : stepD (cache, ups) f = (cache, ups) := by
  unfold stepD
  cases hT : matchesTXT f.name
  · simp [hT]
  · rcases hm : f.mtime with _ | m
    · simp [hT, hm]
    · have hc := h hT m hm
      simp [hT, hm, hc]

/-- The loop body only writes the cache entry of its own file name. -/
theorem stepD_cache_other (acc : DAcc) (f : DFile) (z : String)
    (hz : z ≠ f.name) : alookup (stepD acc f).1 z = alookup acc.1 z := by
  unfold stepD
  simp only
  repeat' split
  all_goals simp [alookup_aset_ne _ _ _ _ hz]

/-- After its loop body ran on a file, the cache is up to date for it. -/
theorem stepD_covers_self (acc : DAcc) (f : DFile) :
    dCovers (stepD acc f).1 f := by
  intro hT m hm
  unfold stepD
  by_cases hc : alookup acc.1 f.name = some m
  · simp [hT, hm, hc]
  · rcases hiso : isoExtract f.name with _ | tok
    · simp [hT, hm, hc, hiso, alookup_aset_self]
    · rcases hcont : f.content with _ | content
      · simp [hT, hm, hc, hiso, hcont, alookup_aset_self]
      · simp [hT, hm, hc, hiso, hcont, alookup_aset_self]

/-- A fold of the scan body over files not named z leaves the cache entry
of z unchanged. -/
theorem foldD_cache_other (files : List DFile) (acc : DAcc) (z : String)
    (hz : z ∉ files.map DFile.name) :
    alookup (files.foldl stepD acc).1 z = alookup acc.1 z := by
  induction files generalizing acc with
  | nil => rfl
  | cons x xs ih =>
    simp only [List.map_cons, List.mem_cons] at hz
    push_neg at hz
    rw [List.foldl_cons, ih _ hz.2, stepD_cache_other _ _ _ hz.1]

/-- After a full scan, the cache is up to date for every listed file. -/
theorem foldD_covers (files : List DFile) (acc : DAcc)
    (hnd : (files.map DFile.name).Nodup) :
    ∀ f ∈ files, dCovers (files.foldl stepD acc).1 f := by
  induction files generalizing acc with
  | nil => intro f hf; simp at hf
  | cons x xs ih =>
    simp only [List.map_cons, List.nodup_cons] at hnd
    intro f hf
    rcases List.mem_cons.1 hf with rfl | hf'
    · intro hT m hm
      rw [List.foldl_cons, foldD_cache_other xs _ f.name hnd.1]
      exact stepD_covers_self acc f hT m hm
    · exact ih (stepD acc x) hnd.2 f hf'

/-- A scan over files whose cache entries are all current is a no-op. -/
theorem foldD_skipAll (files : List DFile) (cache : List (String × ℤ))
    (ups : List CncUpdate) (hcov : ∀ f ∈ files, dCovers cache f) :
    files.foldl stepD (cache, ups) = (cache, ups) := by
  induction files with
  | nil => rfl
  | cons x xs ih =>
    rw [List.foldl_cons, stepD_skip cache ups x (hcov x (List.mem_cons_self x xs))]
    exact ih (fun f hf => hcov f (List.mem_cons_of_mem x hf))

/-! ## Claim C8 -/

/-- Claim C8: a report file whose modification time equals the cached one
is skipped without parsing or updating anything, and re-running the whole
report scan on an unchanged folder produces no additional store update
and no state change at all (idempotence per modification time). -/
theorem C8_report_idempotent :
    (∀ (cache : List (String × ℤ)) (ups : List CncUpdate) (f : DFile) (m : ℤ),
      f.mtime = some m → alookup cache f.name = some m →
      stepD (cache, ups) f = (cache, ups)) ∧
    (∀ (s : EngineState) (files : List DFile),
      (files.map DFile.name).Nodup →
      processFolderD files (processFolderD files s) = processFolderD files s) := by
  constructor
  · intro cache ups f m hm hc
    refine stepD_skip cache ups f ?_
    intro _ m' hm'
    rw [hm] at hm'
    cases hm'
    exact hc
  · intro s files hnd
    have hcov := foldD_covers files (s.d_cache, ([] : List CncUpdate)) hnd
    unfold processFolderD
    simp only
    rw [foldD_skipAll files _ ([] : List CncUpdate) hcov]
    rfl

/-- Claim C8, witness: the skip and the scan idempotence evaluated on a
concrete cached report. -/
theorem C8_witness :
    stepD ([("#j.iso.txt", (5 : ℤ))], ([] : List CncUpdate))
        { name := "#j.iso.txt", mtime := some 5, content := some "STEEL-3MM" } =
      ([("#j.iso.txt", (5 : ℤ))], ([] : List CncUpdate)) ∧
    processFolderD
        [{ name := "#j.iso.txt", mtime := some 5, content := some "STEEL-3MM" }]
        (processFolderD
          [{ name := "#j.iso.txt", mtime := some 5, content := some "STEEL-3MM" }]
          stW) =
      processFolderD
        [{ name := "#j.iso.txt", mtime := some 5, content := some "STEEL-3MM" }]
        stW :=
  ⟨C8_report_idempotent.1 [("#j.iso.txt", (5 : ℤ))] [] _ 5 rfl rfl,
   C8_report_idempotent.2 stW _ (by decide)⟩

/-! ## Claim C9 -/

/-- Claim C9: during the report scan the cache is updated to the new
modification time before the naming convention is checked or the content
is read; hence a changed report whose name does not match the convention,
or whose content cannot be read, is skipped with only its cache entry
updated, and is skipped outright on re-examination while its modification
time stays unchanged. -/
theorem C9_cache_before_validation :
    ∀ (cache : List (String × ℤ)) (ups : List CncUpdate) (f : DFile) (m : ℤ),
      f.mtime = some m → matchesTXT f.name = true →
      ¬(alookup cache f.name = some m) →
      (isoExtract f.name = none ∨ f.content = none) →
      stepD (cache, ups) f = (aset cache f.name m, ups) ∧
      (∀ ups2 : List CncUpdate,
        stepD (aset cache f.name m, ups2) f = (aset cache f.name m, ups2)) := by
  intro cache ups f m hm hT hc hbad
  constructor
  · unfold stepD
    rcases hbad with hiso | hcont
    · simp [hT, hm, hc, hiso]
    · rcases hiso : isoExtract f.name with _ | tok
      · simp [hT, hm, hc, hiso]
      · simp [hT, hm, hc, hiso, hcont]
  · intro ups2
    refine stepD_skip _ ups2 f ?_
    intro _ m' hm'
    rw [hm] at hm'
    cases hm'
    exact alookup_aset_self cache f.name m

/-- Claim C9, witness: a report with a fresh mtime whose name does not
match the #name.iso.txt convention gets its cache entry written and
nothing else, and is skipped on the next look. -/
theorem C9_witness :
    stepD (([] : List (String × ℤ)), ([] : List CncUpdate))
        { name := "#bad.txt", mtime := some 5, content := some "x" } =
      (aset [] "#bad.txt" (5 : ℤ), ([] : List CncUpdate)) ∧
    stepD (aset [] "#bad.txt" (5 : ℤ), ([] : List CncUpdate))
        { name := "#bad.txt", mtime := some 5, content := some "x" } =
      (aset [] "#bad.txt" (5 : ℤ), ([] : List CncUpdate)) :=
  ⟨(C9_cache_before_validation [] [] _ 5 rfl (by decide) (by decide)
      (Or.inl (by decide))).1,
   (C9_cache_before_validation [] [] _ 5 rfl (by decide) (by decide)
      (Or.inl (by decide))).2 []⟩

/-! ## Stage-B scan facts (claims C7 and C10) -/

/-- The state after one loop body of _process_folder_b is the input
state, the input state with a fresh sighting recorded, or the state of an
_archive_file call. -/
theorem stepB_shape (cfg : Cfg) (flf : String → ArchFaults)
    (fsB : String → Bool) (now : ℤ) (acc : BOut) (filename : String) :
    (stepB cfg flf fsB now acc filename).st = acc.st ∨
    (stepB cfg flf fsB now acc filename).st =
      { acc.st with seen_in_b := aset acc.st.seen_in_b filename now } ∨
    (stepB cfg flf fsB now acc filename).st =
      (archiveFile cfg (flf filename) acc.st acc.fs filename now).st := by
  unfold stepB
  repeat' split
  all_goals simp

/-- One loop body of _process_folder_b for file y does not disturb the
sighting entry of another file z, and mentions z in no archive-invocation
event. -/
theorem stepB_other (cfg : Cfg) (flf : String → ArchFaults)
    (fsB : String → Bool) (now : ℤ) (acc : BOut) (y z : String) (hzy : z ≠ y) :
    alookup (stepB cfg flf fsB now acc y).st.seen_in_b z =
      alookup acc.st.seen_in_b z ∧
    (Ev.archiveInvoked z ∈ (stepB cfg flf fsB now acc y).trace ↔
      Ev.archiveInvoked z ∈ acc.trace) := by
  unfold stepB
  split
  · exact ⟨rfl, Iff.rfl⟩
  · split
    · constructor
      · simp [alookup_aset_ne _ _ _ _ hzy]
      · simp [Ne.symm hzy]
    · split
      · exact ⟨rfl, Iff.rfl⟩
      · constructor
        · rcases archive_cases cfg (flf y) acc.st acc.fs y now with
            ⟨_, _, hseen⟩ | ⟨_, _, hseen⟩
          · simp [hseen]
          · simp [hseen, alookup_aerase_ne _ _ _ hzy]
        · have hun := archive_trace_unnamed cfg (flf y) acc.st acc.fs y z now
          simp [hun.1, Ne.symm hzy]
          intro h
          exact absurd h hzy

/-- Folding the loop body over names other than z preserves the sighting
entry of z and the presence of its archive-invocation event. -/
theorem foldB_other (cfg : Cfg) (flf : String → ArchFaults)
    (fsB : String → Bool) (now : ℤ) (l : List String) (z : String)
    (hz : z ∉ l) (acc : BOut) :
    alookup (l.foldl (stepB cfg flf fsB now) acc).st.seen_in_b z =
      alookup acc.st.seen_in_b z ∧
    (Ev.archiveInvoked z ∈ (l.foldl (stepB cfg flf fsB now) acc).trace ↔
      Ev.archiveInvoked z ∈ acc.trace) := by
  induction l generalizing acc with
  | nil => exact ⟨rfl, Iff.rfl⟩
  | cons x xs ih =>
    simp only [List.mem_cons] at hz
    push_neg at hz
    have h1 := stepB_other cfg flf fsB now acc x z hz.1
    have h2 := ih hz.2 (stepB cfg flf fsB now acc x)
    rw [List.foldl_cons]
    exact ⟨h2.1.trans h1.1, h2.2.trans h1.2⟩

/-- The invariant of claim C10: every file with a stage-B sighting is
still in the in-flight map. -/
def invBW (s : EngineState) : Prop :=
  ∀ k : String, (alookup s.seen_in_b k).isSome → (alookup s.waiting k).isSome

/-- One _archive_file call preserves the sighting-implies-waiting
invariant: on failure both maps are untouched, on success both entries
are removed together. -/
theorem archive_invBW (cfg : Cfg) (fl : ArchFaults) (s : EngineState)
    (fs : FS) (filename : String) (now : ℤ) (h : invBW s) :
    invBW (archiveFile cfg fl s fs filename now).st := by
  rcases archive_cases cfg fl s fs filename now with
    ⟨_, hw, hs⟩ | ⟨_, hw, hs⟩
  · intro k hk
    rw [hw]
    rw [hs] at hk
    exact h k hk
  · intro k hk
    rw [hs] at hk
    rw [hw]
    by_cases hkf : k = filename
    · subst hkf
      rw [alookup_aerase_self] at hk
      simp at hk
    · rw [alookup_aerase_ne _ _ _ hkf] at hk
      rw [alookup_aerase_ne _ _ _ hkf]
      exact h k hk

/-- One intake-scan loop body either leaves the state unchanged or adds
an in-flight entry for its file name, never touching the sighting map. -/
theorem stepA_shape (cfg : Cfg) (isfile : String → Bool)
    (stab : String → Option (ℕ × ℕ)) (now : ℤ) (s : EngineState)
    (filename : String) :
    stepA cfg isfile stab now s filename = s ∨
    ∃ v, stepA cfg isfile stab now s filename =
      { s with waiting := aset s.waiting filename v } := by
  unfold stepA
  simp only
  repeat' split
  all_goals first
    | exact Or.inl rfl
    | exact Or.inr ⟨_, rfl⟩

/-- One intake-scan loop body preserves the invariant. -/
theorem stepA_invBW (cfg : Cfg) (isfile : String → Bool)
    (stab : String → Option (ℕ × ℕ)) (now : ℤ) (s : EngineState)
    (filename : String) (h : invBW s) :
    invBW (stepA cfg isfile stab now s filename) := by
  rcases stepA_shape cfg isfile stab now s filename with hs | ⟨v, hs⟩
  · rw [hs]; exact h
  · rw [hs]
    intro k hk
    simp only at hk ⊢
    by_cases hkf : k = filename
    · subst hkf
      simp [alookup_aset_self]
    · rw [alookup_aset_ne _ _ _ _ hkf]
      exact h k hk

/-- The intake scan preserves the invariant. -/
theorem processFolderA_invBW (cfg : Cfg) (isfile : String → Bool)
    (stab : String → Option (ℕ × ℕ)) (now : ℤ) (listing : List String)
    (s : EngineState) (h : invBW s) :
    invBW (processFolderA cfg isfile stab now listing s) := by
  unfold processFolderA
  induction listing generalizing s with
  | nil => exact h
  | cons x xs ih =>
    rw [List.foldl_cons]
    exact ih _ (stepA_invBW cfg isfile stab now s x h)

/-- The forthcoming names of the stage-B fold stay in the in-flight map
through one loop body on a different name. -/
theorem stepB_waiting_other (cfg : Cfg) (flf : String → ArchFaults)
    (fsB : String → Bool) (now : ℤ) (acc : BOut) (y z : String) (hzy : z ≠ y)
    (hz : (alookup acc.st.waiting z).isSome) :
    (alookup (stepB cfg flf fsB now acc y).st.waiting z).isSome := by
  rcases stepB_shape cfg flf fsB now acc y with h | h | h
  · rw [h]; exact hz
  · rw [h]; exact hz
  · rw [h]
    rcases archive_cases cfg (flf y) acc.st acc.fs y now with
      ⟨_, hw, _⟩ | ⟨_, hw, _⟩
    · rw [hw]; exact hz
    · rw [hw, alookup_aerase_ne _ _ _ hzy]; exact hz

/-- One stage-B loop body preserves the invariant, provided the name it
processes is still in the in-flight map. -/
theorem stepB_invBW (cfg : Cfg) (flf : String → ArchFaults)
    (fsB : String → Bool) (now : ℤ) (acc : BOut) (x : String)
    (hinv : invBW acc.st) (hx : (alookup acc.st.waiting x).isSome) :
    invBW (stepB cfg flf fsB now acc x).st := by
  rcases stepB_shape cfg flf fsB now acc x with h | h | h
  · rw [h]; exact hinv
  · rw [h]
    intro k hk
    simp only at hk ⊢
    by_cases hkx : k = x
    · subst hkx; exact hx
    · rw [alookup_aset_ne _ _ _ _ hkx] at hk
      exact hinv k hk
  · rw [h]
    exact archive_invBW cfg (flf x) acc.st acc.fs x now hinv

/-- The stage-B fold over distinct still-tracked names preserves the
invariant. -/
theorem foldB_invBW (cfg : Cfg) (flf : String → ArchFaults)
    (fsB : String → Bool) (now : ℤ) (l : List String) (acc : BOut)
    (hnd : l.Nodup) (hinv : invBW acc.st)
    (hrem : ∀ x ∈ l, (alookup acc.st.waiting x).isSome) :
    invBW ((l.foldl (stepB cfg flf fsB now) acc)).st := by
  induction l generalizing acc with
  | nil => exact hinv
  | cons x xs ih =>
    rw [List.nodup_cons] at hnd
    rw [List.foldl_cons]
    refine ih (stepB cfg flf fsB now acc x) hnd.2
      (stepB_invBW cfg flf fsB now acc x hinv
        (hrem x (List.mem_cons_self x xs))) ?_
    intro y hy
    have hyx : y ≠ x := fun hh => hnd.1 (hh ▸ hy)
    exact stepB_waiting_other cfg flf fsB now acc x y hyx
      (hrem y (List.mem_cons_of_mem x hy))

/-- Master lemma for claim C7: in the stage-B fold over distinct tracked
names containing z, with z present in folder B: a file with no prior
sighting gets its sighting recorded at now and no archival invocation,
and a file sighted at t gets archival invoked exactly when now - t
reaches the dwell threshold of 420 seconds. -/
theorem foldB_spec (cfg : Cfg) (flf : String → ArchFaults)
    (fsB : String → Bool) (now : ℤ) (l : List String) (z : String)
    (hb : fsB (pjoin cfg.folder_b z) = true) (hnd : l.Nodup) (hz : z ∈ l)
    (acc : BOut) :
    (alookup acc.st.seen_in_b z = none →
      alookup (l.foldl (stepB cfg flf fsB now) acc).st.seen_in_b z = some now ∧
      (Ev.archiveInvoked z ∈ (l.foldl (stepB cfg flf fsB now) acc).trace ↔
        Ev.archiveInvoked z ∈ acc.trace)) ∧
    (∀ t : ℤ, alookup acc.st.seen_in_b z = some t →
      (Ev.archiveInvoked z ∈ (l.foldl (stepB cfg flf fsB now) acc).trace ↔
        (420 ≤ now - t ∨ Ev.archiveInvoked z ∈ acc.trace))) := by
  induction l generalizing acc with
  | nil => simp at hz
  | cons x xs ih =>
    rw [List.nodup_cons] at hnd
    rw [List.foldl_cons]
    by_cases hxz : x = z
    · subst hxz
      have hzxs : x ∉ xs := hnd.1
      constructor
      · intro hnone
        have hstep : stepB cfg flf fsB now acc x =
            { st := { acc.st with seen_in_b := aset acc.st.seen_in_b x now },
              fs := acc.fs, trace := acc.trace ++ [Ev.sighting x] } := by
          unfold stepB
          simp [hb, hnone]
        rw [hstep]
        have hoth := foldB_other cfg flf fsB now xs x hzxs
          { st := { acc.st with seen_in_b := aset acc.st.seen_in_b x now },
            fs := acc.fs, trace := acc.trace ++ [Ev.sighting x] }
        constructor
        · rw [hoth.1]
          simp [alookup_aset_self]
        · rw [hoth.2]
          simp
      · intro t ht
        by_cases hlt : now - t < 420
        · have hstep : stepB cfg flf fsB now acc x = acc := by
            unfold stepB
            simp [hb, ht, hlt]
          rw [hstep]
          have hoth := foldB_other cfg flf fsB now xs x hzxs acc
          rw [hoth.2]
          constructor
          · exact fun h => Or.inr h
          · rintro (h | h)
            · exact absurd h (by omega)
            · exact h
        · have hstep : stepB cfg flf fsB now acc x =
              { st := (archiveFile cfg (flf x) acc.st acc.fs x now).st,
                fs := (archiveFile cfg (flf x) acc.st acc.fs x now).fs,
                trace := acc.trace ++ [Ev.archiveInvoked x] ++
                  (archiveFile cfg (flf x) acc.st acc.fs x now).trace } := by
            unfold stepB
            simp [hb, ht, hlt]
          rw [hstep]
          have hoth := foldB_other cfg flf fsB now xs x hzxs
            { st := (archiveFile cfg (flf x) acc.st acc.fs x now).st,
              fs := (archiveFile cfg (flf x) acc.st acc.fs x now).fs,
              trace := acc.trace ++ [Ev.archiveInvoked x] ++
                (archiveFile cfg (flf x) acc.st acc.fs x now).trace }
          rw [hoth.2]
          simp only [List.mem_append, List.mem_singleton]
          constructor
          · intro _
            exact Or.inl (by omega)
          · intro _
            exact Or.inl (Or.inr trivial)
    · have hz' : z ∈ xs :=
        (List.mem_cons.1 hz).resolve_left (fun h => hxz h.symm)
      have hso := stepB_other cfg flf fsB now acc x z (fun h => hxz h.symm)
      have hrec := ih hnd.2 hz' (stepB cfg flf fsB now acc x)
      constructor
      · intro hnone
        have hnone' : alookup (stepB cfg flf fsB now acc x).st.seen_in_b z = none := by
          rw [hso.1]
          exact hnone
        obtain ⟨ha, hbiff⟩ := hrec.1 hnone'
        exact ⟨ha, hbiff.trans hso.2⟩
      · intro t ht
        have ht' : alookup (stepB cfg flf fsB now acc x).st.seen_in_b z = some t := by
          rw [hso.1]
          exact ht
        rw [hrec.2 t ht']
        exact or_congr Iff.rfl hso.2

/-! ## Claim C7 -/

/-- Claim C7: for a tracked file present at the machine stage, the first
sighting only records the sighting time and invokes no archival that
tick; on later ticks, with the sighting recorded at t, archival is
invoked if and only if now - t has reached the 7-minute threshold of 420
seconds - it fires at exactly the threshold and not just below it. -/
theorem C7_dwell_threshold (cfg : Cfg) (flf : String → ArchFaults)
    (fsB : String → Bool) (now : ℤ) (s : EngineState) (fs : FS)
    (filename : String) (hnd : (akeys s.waiting).Nodup)
    (hmem : filename ∈ akeys s.waiting)
    (hb : fsB (pjoin cfg.folder_b filename) = true) :
    (alookup s.seen_in_b filename = none →
      alookup (processFolderB cfg flf fsB now s fs).st.seen_in_b filename =
        some now ∧
      Ev.archiveInvoked filename ∉ (processFolderB cfg flf fsB now s fs).trace) ∧
    (∀ t : ℤ, alookup s.seen_in_b filename = some t →
      (Ev.archiveInvoked filename ∈ (processFolderB cfg flf fsB now s fs).trace ↔
        420 ≤ now - t)) := by
  have hspec := foldB_spec cfg flf fsB now (akeys s.waiting) filename hb hnd hmem
    { st := s, fs := fs, trace := [] }
  unfold processFolderB
  constructor
  · intro hnone
    obtain ⟨h1, h2⟩ := hspec.1 hnone
    refine ⟨h1, fun hm => ?_⟩
    have := h2.1 hm
    simp at this
  · intro t ht
    have := hspec.2 t ht
    simpa using this

/-- Claim C7, witness: the dwell boundary evaluated concretely - with the
sighting at time 100, the scan at time 520 (elapsed exactly 420) invokes
archival, the scan at time 519 does not, and a first sighting at time 600
records the time and invokes nothing. -/
theorem C7_witness :
    (Ev.archiveInvoked "j.iso" ∈
        (processFolderB cfgW (fun _ => honestFaults fdW) (fun _ => true)
          520 stW fsW).trace ↔ (420 : ℤ) ≤ 520 - 100) ∧
    (Ev.archiveInvoked "j.iso" ∈
        (processFolderB cfgW (fun _ => honestFaults fdW) (fun _ => true)
          519 stW fsW).trace ↔ (420 : ℤ) ≤ 519 - 100) ∧
    (alookup (processFolderB cfgW (fun _ => honestFaults fdW) (fun _ => true)
        600 { stW with seen_in_b := [] } fsW).st.seen_in_b "j.iso" =
      some 600 ∧
     Ev.archiveInvoked "j.iso" ∉
       (processFolderB cfgW (fun _ => honestFaults fdW) (fun _ => true)
         600 { stW with seen_in_b := [] } fsW).trace) :=
  ⟨(C7_dwell_threshold cfgW (fun _ => honestFaults fdW) (fun _ => true)
      520 stW fsW "j.iso" (by decide) (by decide) rfl).2 100 rfl,
   (C7_dwell_threshold cfgW (fun _ => honestFaults fdW) (fun _ => true)
      519 stW fsW "j.iso" (by decide) (by decide) rfl).2 100 rfl,
   (C7_dwell_threshold cfgW (fun _ => honestFaults fdW) (fun _ => true)
      600 { stW with seen_in_b := [] } fsW "j.iso" (by decide) (by decide)
      rfl).1 rfl⟩

/-! ## Claim C10 -/

/-- Claim C10: every engine operation preserves the inclusion of the
stage-B sighting map's domain in the in-flight map's domain - the
initial state satisfies it, the intake scan only adds in-flight entries,
an archival removes the sighting and in-flight entries together or
neither, the stage-B scan creates sightings only for tracked files, and
the report scan touches neither map. -/
theorem C10_sighting_subset_waiting :
    invBW initState ∧
    (∀ (cfg : Cfg) (isfile : String → Bool) (stab : String → Option (ℕ × ℕ))
       (now : ℤ) (listing : List String) (s : EngineState), invBW s →
      invBW (processFolderA cfg isfile stab now listing s)) ∧
    (∀ (cfg : Cfg) (fl : ArchFaults) (s : EngineState) (fs : FS)
       (filename : String) (now : ℤ), invBW s →
      invBW (archiveFile cfg fl s fs filename now).st) ∧
    (∀ (cfg : Cfg) (flf : String → ArchFaults) (fsB : String → Bool)
       (now : ℤ) (s : EngineState) (fs : FS), invBW s →
      (akeys s.waiting).Nodup →
      invBW (processFolderB cfg flf fsB now s fs).st) ∧
    (∀ (files : List DFile) (s : EngineState), invBW s →
      invBW (processFolderD files s)) := by
  refine ⟨?_, ?_, ?_, ?_, ?_⟩
  · intro k hk
    simp [initState, alookup] at hk
  · intro cfg isfile stab now listing s h
    exact processFolderA_invBW cfg isfile stab now listing s h
  · intro cfg fl s fs filename now h
    exact archive_invBW cfg fl s fs filename now h
  · intro cfg flf fsB now s fs h hnd
    unfold processFolderB
    refine foldB_invBW cfg flf fsB now (akeys s.waiting)
      { st := s, fs := fs, trace := [] } hnd h ?_
    intro x hx
    exact alookup_isSome_of_mem_akeys s.waiting x hx
  · intro files s h
    intro k hk
    exact h k hk

/-- Claim C10, witness: the invariant is preserved through a concrete
stage-B scan that archives the tracked file. -/
theorem C10_witness :
    invBW (processFolderB cfgW (fun _ => honestFaults fdW) (fun _ => true)
      600 stW fsW).st :=
  C10_sighting_subset_waiting.2.2.2.1 cfgW (fun _ => honestFaults fdW)
    (fun _ => true) 600 stW fsW
    (by
      intro k hk
      unfold stW at hk ⊢
      simp only [alookup] at hk ⊢
      by_cases h : "j.iso" = k
      · simp [h]
      · simp [h] at hk)
    (by decide)
